import Mathlib

/-!
Verification of the record-linkage / anonymisation engine of
`src/functions/anonymise_mri.py` (class `Anonymisation`).

The Python code is shallowly embedded: the mutable `self.mapping` dictionary
becomes an explicit association list threaded through every operation,
exceptions become `Except String`, and the nondeterministic outcomes of
repeated I/O attempts (`os.listdir`, a retried operation) become an explicit
outcome function `Nat → Except String _` giving the result of each attempt.
-/

/-- A pydicom PersonName, reduced to the two components the code reads:
`family_name` (component 0) and `given_name` (component 1). -/
structure PName where
  family : String
  given : String
deriving DecidableEq, Repr

/-- One ledger entry, mirroring the dictionary created by
`initialise_mapping_entry`: the (possibly unassigned) patient index plus the
five parallel encounter sequences. -/
structure Entry where
  index : Option Nat
  patientNames : List String
  newPatientNames : List String
  accessionNumbers : List String
  studyDates : List String
  originalBaseFolders : List String
deriving DecidableEq, Repr

/-- The persisted mapping `self.mapping`: patient id → entry, as an
insertion-ordered association list (Python dicts preserve insertion order,
and `len(self.mapping)` is the number of keys). -/
abbrev Ledger := List (String × Entry)

/-- The key fields `extract_key_info` pulls out of one DICOM dataset. -/
structure PatientInfo where
  patientId : String
  patientName : PName
  accessionNumber : String
  studyDate : String
  folder : String
deriving DecidableEq, Repr

/-- Dictionary lookup `self.mapping[pid]` / `pid in self.mapping`. -/
def lookup_entry : Ledger → String → Option Entry
  | [], _ => none
  | (k, e) :: rest, pid => if k = pid then some e else lookup_entry rest pid

/-- The zero-state entry built by `initialise_mapping_entry`. -/
def empty_entry : Entry :=
  { index := none, patientNames := [], newPatientNames := [],
    accessionNumbers := [], studyDates := [], originalBaseFolders := [] }

/-- `initialise_mapping_entry`: a no-op when the patient id is already a key,
otherwise inserts the zero-state entry (Python dict insertion appends). -/
def initialise_mapping_entry (patientId : String) (m : Ledger) : Ledger :=
  match lookup_entry m patientId with
  | some _ => m
  | none => m ++ [(patientId, empty_entry)]

/-- The loop body of `exists_in_mapping`: scans
`zip(entry[AccessionNumber], entry[StudyDate])` for an exact match. -/
def exists_pair : List (String × String) → String → String → Bool
  | [], _, _ => false
  | (a, d) :: rest, acc, date =>
    if a = acc ∧ d = date then true else exists_pair rest acc date

/-- `exists_in_mapping`: true iff the patient id is a key and some position of
the zipped accession/study-date sequences matches both values exactly. -/
def exists_in_mapping (info : PatientInfo) (m : Ledger) : Bool :=
  match lookup_entry m info.patientId with
  | none => false
  | some e => exists_pair (e.accessionNumbers.zip e.studyDates) info.accessionNumber info.studyDate

/-- `get_patient_index`: the stored index if not `None`, else the candidate
`len(self.mapping)`. `none` models the `KeyError` Python raises when the
patient id is not a key of `self.mapping`. -/
def get_patient_index (info : PatientInfo) (m : Ledger) : Option Nat :=
  match lookup_entry m info.patientId with
  | none => none
  | some e =>
    match e.index with
    | some i => some i
    | none => some m.length

/-- Python string indexing `s[0]`: `IndexError` on an empty string, else the
one-character string at position 0. -/
def str_head (s : String) : Except String String :=
  if s = "" then .error "IndexError" else .ok (s.take 1)

/-- `generate_new_patient_name`: tries `given_name[0] + family_name[0]`, falls
back to `family_name[0]` when that raises, then appends
`str(patient_index) + '_' + str(study_date)`. The fallback re-raises when even
the family initial is unavailable. -/
def generate_new_patient_name (pn : PName) (patientIndex : Nat) (studyDate : String) :
    Except String String :=
  match (match str_head pn.given, str_head pn.family with
         | .ok g, .ok f => (.ok (g ++ f) : Except String String)
         | _, _ => str_head pn.family) with
  | .error e => .error e
  | .ok initials => .ok (initials ++ toString patientIndex ++ "_" ++ studyDate)

/-- The initials prefix `generate_new_patient_name` produces when the family
name is non-empty. -/
def initials_of (pn : PName) : String :=
  if pn.given = "" then pn.family.take 1 else pn.given.take 1 ++ pn.family.take 1

/-- Python `str(patient_name)` on a two-component PersonName. -/
def pn_to_string (pn : PName) : String := pn.family ++ "^" ++ pn.given

/-- In-place update `self.mapping[pid] = entry` of an existing key. -/
def set_entry : Ledger → String → Entry → Ledger
  | [], _, _ => []
  | (k, e) :: rest, pid, newE =>
    if k = pid then (k, newE) :: rest else (k, e) :: set_entry rest pid newE

/-- `add_to_mapping`: initialises the entry, computes the candidate index,
derives the pseudonym from the record currently in hand, and — only when the
(patientId, accession, studyDate) triple is new — commits the index and
appends one element to each of the five parallel sequences. -/
def add_to_mapping (info : PatientInfo) (m : Ledger) : Except String (String × Ledger) :=
  let m1 := initialise_mapping_entry info.patientId m
  match get_patient_index info m1, lookup_entry m1 info.patientId with
  | some patientIndex, some entry =>
    match generate_new_patient_name info.patientName patientIndex info.studyDate with
    | .error e => .error e
    | .ok newPatientName =>
      if exists_in_mapping info m1 then
        .ok (newPatientName, m1)
      else
        .ok (newPatientName,
          set_entry m1 info.patientId
            { index := some patientIndex,
              patientNames := entry.patientNames ++ [pn_to_string info.patientName],
              newPatientNames := entry.newPatientNames ++ [newPatientName],
              accessionNumbers := entry.accessionNumbers ++ [info.accessionNumber],
              studyDates := entry.studyDates ++ [info.studyDate],
              originalBaseFolders := entry.originalBaseFolders ++ [info.folder] })
  | _, _ => .error "KeyError"

/-- The index stored (possibly `None`) in a patient's ledger entry. -/
def entry_index (m : Ledger) (pid : String) : Option Nat :=
  match lookup_entry m pid with
  | none => none
  | some e => e.index

/-- Number of positions of the zipped accession/study-date sequences matching
a pair exactly. -/
def count_pairs : List (String × String) → String → String → Nat
  | [], _, _ => 0
  | (a, d) :: rest, acc, date =>
    if a = acc ∧ d = date then count_pairs rest acc date + 1 else count_pairs rest acc date

/-- How many times a record's (accession, studyDate) pair is recorded in its
patient's entry. -/
def triple_count (m : Ledger) (info : PatientInfo) : Nat :=
  match lookup_entry m info.patientId with
  | none => 0
  | some e => count_pairs (e.accessionNumbers.zip e.studyDates) info.accessionNumber info.studyDate

/-- Position of the first matching (accession, studyDate) pair. -/
def pair_position : List (String × String) → String → String → Option Nat
  | [], _, _ => none
  | (a, d) :: rest, acc, date =>
    if a = acc ∧ d = date then some 0
    else (pair_position rest acc date).map (· + 1)

/-- The pseudonym stored in `NewPatientName` at the position whose
accession/study-date pair matches the record — what the spec says a
re-encounter returns. -/
def matched_pseudonym (info : PatientInfo) (m : Ledger) : Option String :=
  match lookup_entry m info.patientId with
  | none => none
  | some e =>
    match pair_position (e.accessionNumbers.zip e.studyDates) info.accessionNumber info.studyDate with
    | none => none
    | some i => e.newPatientNames.get? i

/-- One DICOM dataset, reduced to its named tags: an association list
tag-keyword → value. Vendor-private tags are distinguished by an explicit
predicate on the tag, mirroring pydicom's `tag.is_private`. -/
abbrev Dataset := List (String × String)

def patient_name_key : String := "PatientName"

def patient_id_key : String := "PatientID"

def accession_key : String := "AccessionNumber"

def study_date_key : String := "StudyDate"

/-- The class constant `__replace_tags`, in Python dict insertion order. -/
def replace_tags : List (String × String) :=
  [("PatientBirthDate", "00010101"),
   ("PatientID", "anonymised"),
   ("PatientAddress", "anonymised"),
   ("ReferringPhysicianName", "anonymised")]

/-- The class constant `__delete_tags` (the source lists
`IssuerOfPatientID` twice). -/
def delete_tags : List String :=
  ["OtherPatientIDs",
   "OtherPatientNames",
   "OtherPatientIDsSequence",
   "IssuerOfPatientID",
   "InstitutionName",
   "InstitutionAddress",
   "PerformingPhysicianName",
   "PerformingPhysicianIdentificationSequence",
   "OperatorsName",
   "OperatorIdentificationSequence",
   "IssuerOfPatientID",
   "IssuerOfPatientIDQualifiersSequence",
   "ReferencedPatientPhotoSequence",
   "ResponsiblePerson",
   "ResponsiblePersonRole",
   "ResponsibleOrganization",
   "ReferringPhysicianIdentificationSequence",
   "ConsultingPhysicianIdentificationSequence",
   "PhysiciansOfRecord",
   "PhysiciansOfRecordIdentificationSequence",
   "NameOfPhysiciansReadingStudy",
   "PhysiciansReadingStudyIdentificationSequence",
   "PatientComments",
   "InstitutionalDepartmentName"]

/-- Named-tag read `dataset.data_element(f).value`, `none` when pydicom
raises because the tag is absent. -/
def lookup_tag : Dataset → String → Option String
  | [], _ => none
  | (k, v) :: rest, f => if k = f then some v else lookup_tag rest f

/-- Overwrite the value of every element carrying the tag (in a real dataset
the tag occurs at most once). -/
def set_tag_in : Dataset → String → String → Dataset
  | [], _, _ => []
  | (k, w) :: rest, f, v =>
    if k = f then (k, v) :: set_tag_in rest f v else (k, w) :: set_tag_in rest f v

/-- The `try: data_element(f).value = v except: add_new(f, .., v)` idiom:
update in place when present, append when absent. -/
def set_tag (d : Dataset) (f v : String) : Dataset :=
  match lookup_tag d f with
  | some _ => set_tag_in d f v
  | none => d ++ [(f, v)]

/-- `if field in dataset: delattr(dataset, field)`: remove the tag when
present, silently skip when absent. -/
def del_tag : Dataset → String → Dataset
  | [], _ => []
  | (k, v) :: rest, f => if k = f then del_tag rest f else (k, v) :: del_tag rest f

/-- The private-tag removal step of `anonymise_dicom`. The code first tries
the bulk `dataset.remove_private_tags()` and, when that raises, falls back to
deleting each private tag of `dataset._dict` individually, skipping with
`except: continue` any tag whose deletion raises. `faulty f = true` models an
incorrectly populated element whose deletion raises; whichever path the
failure surfaces in, a private tag whose deletion works is removed and a
faulty private tag survives the scrub. The dataset model is flat, so the bulk
path's recursion into sequence items and the fallback's top-level iteration
range over the same elements. -/
def remove_private_tags (isPrivate faulty : String → Bool) : Dataset → Dataset
  | [] => []
  | (k, v) :: rest =>
    if isPrivate k = true ∧ faulty k = false then remove_private_tags isPrivate faulty rest
    else (k, v) :: remove_private_tags isPrivate faulty rest

/-- Characters of a PersonName value up to the next component separator. -/
def name_component : List Char → List Char
  | [] => []
  | c :: rest => if c = Char.ofNat 94 then [] else c :: name_component rest

/-- Characters after the first component separator, `none` when there is
no separator. -/
def name_rest : List Char → Option (List Char)
  | [] => none
  | c :: rest => if c = Char.ofNat 94 then some rest else name_rest rest

/-- pydicom PersonName parsing, for the two components the code uses:
component 0 (up to the first caret) is the family name, component 1 the
given name, empty when missing. -/
def parse_person_name (s : String) : PName :=
  { family := String.mk (name_component s.data),
    given :=
      match name_rest s.data with
      | none => ""
      | some rest => String.mk (name_component rest) }

/-- `extract_key_info`: reads PatientID, PatientName (falling back to the
sentinel `Z^Z`, which it also writes into the dataset), AccessionNumber and
StudyDate, plus the base folder of the source directory. Missing mandatory
tags model pydicom's exception. -/
def extract_key_info (sourceBase : String) (d : Dataset) :
    Except String (PatientInfo × Dataset) :=
  match lookup_tag d patient_id_key with
  | none => .error "KeyError: PatientID"
  | some pid =>
    let nd : String × Dataset :=
      match lookup_tag d patient_name_key with
      | some n => (n, d)
      | none => ("Z^Z", set_tag d patient_name_key "Z^Z")
    match lookup_tag nd.2 accession_key with
    | none => .error "KeyError: AccessionNumber"
    | some acc =>
      match lookup_tag nd.2 study_date_key with
      | none => .error "KeyError: StudyDate"
      | some sd =>
        .ok ({ patientId := pid, patientName := parse_person_name nd.1,
               accessionNumber := acc, studyDate := sd, folder := sourceBase }, nd.2)

/-- `anonymise_dicom`: extract key info, resolve the pseudonym through the
ledger, then scrub: set the patient name to the pseudonym, apply the replace
table, apply the delete list, and remove the private tags — every private
tag whose deletion works is removed, while one whose deletion raises is
skipped by the fallback's `except: continue` and survives. -/
def anonymise_dicom (isPrivate faulty : String → Bool) (sourceBase : String)
    (d : Dataset) (m : Ledger) : Except String (Dataset × String × Ledger) :=
  match extract_key_info sourceBase d with
  | .error e => .error e
  | .ok (info, d0) =>
    match add_to_mapping info m with
    | .error e => .error e
    | .ok (newPatientName, m1) =>
      let d1 := set_tag d0 patient_name_key newPatientName
      let d2 := replace_tags.foldl (fun acc fv => set_tag acc fv.1 fv.2) d1
      let d3 := delete_tags.foldl (fun acc f => del_tag acc f) d2
      let d4 := remove_private_tags isPrivate faulty d3
      .ok (d4, newPatientName, m1)

/-- Whether an attempt outcome is a success. -/
def is_ok {ε α : Type} : Except ε α → Bool
  | .ok _ => true
  | .error _ => false

/-- The retry loop of `retry_function`: runs the listed attempts in order,
returning the first success; each failure overwrites the carried exception,
which is raised when the attempts run out. -/
def retry_go {α : Type} (attempt : Nat → Except String α) :
    List Nat → String → Except String α
  | [], e => .error e
  | i :: rest, _ =>
    match attempt i with
    | .ok a => .ok a
    | .error e2 => retry_go attempt rest e2

/-- `retry_function(times, function)`: makes at most `times` calls of the
operation (whose per-call outcome is `attempt`); the carried exception starts
as the synthetic `Retry Exception Failed.` raised when `times = 0`. -/
def retry_function {α : Type} (times : Nat) (attempt : Nat → Except String α) :
    Except String α :=
  retry_go attempt (List.range times) "Retry Exception Failed."

/-- Modelled from the spec: the claimed contract `retry(operation, n)`
executes the operation once and on failure retries it up to `n` further
times — `n + 1` calls in all — returning the first success and otherwise
re-raising the last failure. -/
def retry_claimed {α : Type} (times : Nat) (attempt : Nat → Except String α) :
    Except String α :=
  retry_go attempt (List.range (times + 1)) "Retry Exception Failed."

/-- The fixed attempt budget `repeat_times = 20` of `listdir`. -/
def repeat_times : Nat := 20

/-- The loop of `listdir`: each listed attempt either fails (absorbed by
`except: pass`) or yields a listing; a listing strictly longer than the best
seen so far replaces the selection. State: `maxSize` starts at `-1`,
`selected` at `[]`. -/
def listdir_loop (outcome : Nat → Except String (List String)) :
    List Nat → Int → List String → List String
  | [], _, selected => selected
  | i :: rest, maxSize, selected =>
    match outcome i with
    | .error _ => listdir_loop outcome rest maxSize selected
    | .ok l =>
      if maxSize < (l.length : Int) then listdir_loop outcome rest (l.length : Int) l
      else listdir_loop outcome rest maxSize selected

/-- `listdir`: 20 independent listing attempts (each itself a
`retry_function(10, os.listdir)` call whose overall outcome is `outcome i`),
keeping the attempt with the strictly largest entry count. -/
def listdir (outcome : Nat → Except String (List String)) : List String :=
  listdir_loop outcome (List.range repeat_times) (-1) []

instance {e a : Type} [DecidableEq e] [DecidableEq a] : DecidableEq (Except e a) := fun x y =>
  match x, y with
  | .ok u, .ok v =>
    if h : u = v then isTrue (by rw [h]) else isFalse (fun hc => h (Except.ok.inj hc))
  | .error u, .error v =>
    if h : u = v then isTrue (by rw [h]) else isFalse (fun hc => h (Except.error.inj hc))
  | .ok _, .error _ => isFalse (fun hc => Except.noConfusion hc)
  | .error _, .ok _ => isFalse (fun hc => Except.noConfusion hc)

/-- The pseudonym `add_to_mapping` derives for a record resolved at index `i`. -/
def pseudo_of (r : PatientInfo) (i : Nat) : String :=
  initials_of r.patientName ++ toString i ++ "_" ++ r.studyDate

/-- The entry after `add_to_mapping` appends one encounter of record `r` at
index `i` with pseudonym `p` to entry `e`. -/
def appended_entry (e : Entry) (r : PatientInfo) (i : Nat) (p : String) : Entry :=
  { index := some i,
    patientNames := e.patientNames ++ [pn_to_string r.patientName],
    newPatientNames := e.newPatientNames ++ [p],
    accessionNumbers := e.accessionNumbers ++ [r.accessionNumber],
    studyDates := e.studyDates ++ [r.studyDate],
    originalBaseFolders := e.originalBaseFolders ++ [r.folder] }

/-- The five parallel sequences of an entry have equal length. -/
def WFEntry (e : Entry) : Prop :=
  e.patientNames.length = e.newPatientNames.length ∧
  e.patientNames.length = e.accessionNumbers.length ∧
  e.patientNames.length = e.studyDates.length ∧
  e.patientNames.length = e.originalBaseFolders.length

/-- Every entry of the ledger satisfies the parallel-sequence invariant. -/
def WFLedger (m : Ledger) : Prop := ∀ pe ∈ m, WFEntry pe.2

/-- Invariant of the selection loop: either the best size equals the selected
listing's length, or nothing has been selected yet. -/
def LoopInv (maxSize : Int) (selected : List String) : Prop :=
  maxSize = (selected.length : Int) ∨ (maxSize = -1 ∧ selected = [])

/-- The spec's truncation-resilience scenario: attempts 0,1,3 list three
entries, attempt 2 lists seven, later attempts fail. -/
def c6_outcome : Nat → Except String (List String) := fun i =>
  if i = 2 then .ok ["a", "b", "c", "d", "e", "f", "g"]
  else if i < 4 then .ok ["a", "b", "c"]
  else .error "WinError 59"

/-- The claim's behaviour and the code's behaviour diverge on an operation
whose first call fails and second call succeeds, with bound 1: the claimed
contract performs the initial call plus one retry and succeeds, while
`retry_function` makes exactly one call and re-raises the first failure. -/
def c7_attempt : Nat → Except String Nat :=
  fun i => if i = 0 then .error "first failure" else .ok 42

/-- The ledger after a first encounter of patient P1 under name Smith^John. -/
def c3_entry : Entry :=
  { index := some 1, patientNames := ["Smith^John"],
    newPatientNames := ["JS1_20200101"], accessionNumbers := ["A1"],
    studyDates := ["20200101"], originalBaseFolders := ["cohort"] }

def c3_m : Ledger := [("P1", c3_entry)]

/-- A record re-carrying P1's already-recorded (A1, 20200101) triple with the
same name as at the original encounter. -/
def c3_r1 : PatientInfo :=
  { patientId := "P1", patientName := { family := "Smith", given := "John" },
    accessionNumber := "A1", studyDate := "20200101", folder := "cohort" }

/-- A record re-carrying the same triple but under a different patient name. -/
def c3_r2 : PatientInfo :=
  { patientId := "P1", patientName := { family := "Brown", given := "Alice" },
    accessionNumber := "A1", studyDate := "20200101", folder := "cohort" }

/-- A second encounter of patient P1 under the same name with a different
accession number and study date. -/
def c8_r2 : PatientInfo :=
  { patientId := "P1", patientName := { family := "Smith", given := "John" },
    accessionNumber := "A2", studyDate := "20200102", folder := "cohort" }

/-- A first record of patient P1 processed against an empty ledger. -/
def c1_r : PatientInfo :=
  { patientId := "P1", patientName := { family := "Smith", given := "John" },
    accessionNumber := "A1", studyDate := "20200101", folder := "cohort" }

/-- The ledger produced by resolving `c1_r` against the empty ledger. -/
def c1_m1 : Ledger :=
  [("P1", { index := some 1, patientNames := ["Smith^John"],
            newPatientNames := ["JS1_20200101"], accessionNumbers := ["A1"],
            studyDates := ["20200101"], originalBaseFolders := ["cohort"] })]

/-- A ledger holding P1's initialised but not-yet-indexed entry. -/
def c1_m0 : Ledger := [("P1", empty_entry)]

/-- A first record of a second distinct patient P2. -/
def c1_r2 : PatientInfo :=
  { patientId := "P2", patientName := { family := "Brown", given := "Alice" },
    accessionNumber := "A2", studyDate := "20200102", folder := "cohort" }

/-- The scrub postcondition the code actually establishes: delete-list
fields gone, replace-table fields at their configured values, every private
field whose deletion works gone, the identity field equal to the resolved
pseudonym, every other public field unchanged from the input record — and a
private field whose deletion raises surviving with its input value. -/
def ScrubPost (isPrivate faulty : String → Bool) (input output : Dataset)
    (pseudonym : String) : Prop :=
  (∀ f ∈ delete_tags, lookup_tag output f = none) ∧
  (∀ fv ∈ replace_tags, lookup_tag output fv.1 = some fv.2) ∧
  (∀ f, isPrivate f = true → faulty f = false → lookup_tag output f = none) ∧
  lookup_tag output patient_name_key = some pseudonym ∧
  (∀ f, f ≠ patient_name_key → f ∉ replace_tags.map Prod.fst → f ∉ delete_tags →
    isPrivate f = false → lookup_tag output f = lookup_tag input f) ∧
  (∀ f, f ≠ patient_name_key → f ∉ replace_tags.map Prod.fst → f ∉ delete_tags →
    isPrivate f = true → faulty f = true → lookup_tag output f = lookup_tag input f)

/-- The private-tag classifier and sample record of the concrete scrub run. -/
def c5_priv : String → Bool := fun f => f == "PrivateCSA"

def c5_d : Dataset :=
  [("PatientID", "P1"), ("PatientName", "Smith^John"),
   ("AccessionNumber", "A1"), ("StudyDate", "20200101"),
   ("InstitutionName", "Hospital"), ("PrivateCSA", "secret"),
   ("StudyDescription", "CMR")]

/-- The record `anonymise_dicom` produces from `c5_d` on an empty ledger
when no deletion fails. -/
def c5_d4 : Dataset :=
  [("PatientID", "anonymised"), ("PatientName", "JS1_20200101"),
   ("AccessionNumber", "A1"), ("StudyDate", "20200101"),
   ("StudyDescription", "CMR"), ("PatientBirthDate", "00010101"),
   ("PatientAddress", "anonymised"), ("ReferringPhysicianName", "anonymised")]

/-- The deletion-failure classifier of the faulty run: the private tag
PrivateCSA is incorrectly populated, so deleting it raises. -/
def c5_faulty : String → Bool := fun f => f == "PrivateCSA"

/-- The record the scrub produces from `c5_d` when the private tag's
deletion raises: the vendor-private field survives. -/
def c5_d4_faulty : Dataset :=
  [("PatientID", "anonymised"), ("PatientName", "JS1_20200101"),
   ("AccessionNumber", "A1"), ("StudyDate", "20200101"),
   ("PrivateCSA", "secret"), ("StudyDescription", "CMR"),
   ("PatientBirthDate", "00010101"), ("PatientAddress", "anonymised"),
   ("ReferringPhysicianName", "anonymised")]

/-! ## Lemmas about pseudonym generation -/

theorem gen_ok (pn : PName) (i : Nat) (d : String) (hfam : pn.family ≠ "") :
    generate_new_patient_name pn i d = .ok (initials_of pn ++ toString i ++ "_" ++ d) := by
  by_cases hg : pn.given = "" <;>
    simp [generate_new_patient_name, str_head, initials_of, hfam, hg]

theorem gen_err (pn : PName) (i : Nat) (d : String) (hfam : pn.family = "") :
    generate_new_patient_name pn i d = .error "IndexError" := by
  by_cases hg : pn.given = "" <;>
    simp [generate_new_patient_name, str_head, hfam, hg]

/-- C4. Pseudonym derivation rule: with both initials available the pseudonym
is givenInitial ++ familyInitial ++ str(index) ++ "_" ++ str(date); with only
the family initial it is familyInitial ++ str(index) ++ "_" ++ str(date); and
with no family initial `generate_new_patient_name` raises instead of
returning normally. -/
theorem c4_pseudonym_rule (pn : PName) (i : Nat) (d : String) :
    (pn.given ≠ "" → pn.family ≠ "" →
      generate_new_patient_name pn i d =
        .ok (pn.given.take 1 ++ pn.family.take 1 ++ toString i ++ "_" ++ d)) ∧
    (pn.given = "" → pn.family ≠ "" →
      generate_new_patient_name pn i d =
        .ok (pn.family.take 1 ++ toString i ++ "_" ++ d)) ∧
    (pn.family = "" → generate_new_patient_name pn i d = .error "IndexError") := by
  refine ⟨fun hg hf => ?_, fun hg hf => ?_, fun hf => gen_err pn i d hf⟩
  · rw [gen_ok pn i d hf]
    simp [initials_of, hg, String.append_assoc]
  · rw [gen_ok pn i d hf]
    simp [initials_of, hg]

theorem c4_pseudonym_rule_witness :
    generate_new_patient_name ⟨"Smith", "John"⟩ 0 "20200101" = .ok "JS0_20200101" ∧
    generate_new_patient_name ⟨"Smith", ""⟩ 0 "20200101" = .ok "S0_20200101" ∧
    generate_new_patient_name ⟨"", "John"⟩ 0 "20200101" = .error "IndexError" :=
  ⟨by rw [(c4_pseudonym_rule ⟨"Smith", "John"⟩ 0 "20200101").1 (by decide) (by decide)]; rfl,
   by rw [(c4_pseudonym_rule ⟨"Smith", ""⟩ 0 "20200101").2.1 rfl (by decide)]; rfl,
   (c4_pseudonym_rule ⟨"", "John"⟩ 0 "20200101").2.2 rfl⟩

/-! ## Lemmas about the listdir selection loop -/

theorem listdir_loop_all_err (outcome : Nat → Except String (List String))
    (idxs : List Nat) (maxSize : Int) (selected : List String)
    (h : ∀ i ∈ idxs, is_ok (outcome i) = false) :
    listdir_loop outcome idxs maxSize selected = selected := by
  induction idxs with
  | nil => rfl
  | cons j rest ih =>
    have hj := h j (by simp)
    cases hout : outcome j with
    | ok l => rw [hout] at hj; simp [is_ok] at hj
    | error e =>
      simp only [listdir_loop, hout]
      exact ih (fun i hi => h i (by simp [hi]))

theorem listdir_loop_sel_le (outcome : Nat → Except String (List String))
    (idxs : List Nat) :
    ∀ maxSize selected, LoopInv maxSize selected →
      selected.length ≤ (listdir_loop outcome idxs maxSize selected).length := by
  induction idxs with
  | nil => intro ms sel _; simp [listdir_loop]
  | cons j rest ih =>
    intro ms sel hinv
    cases hout : outcome j with
    | error e => simpa [listdir_loop, hout] using ih ms sel hinv
    | ok l =>
      simp only [listdir_loop, hout]
      by_cases hlt : ms < (l.length : Int)
      · rw [if_pos hlt]
        have hres := ih (l.length : Int) l (Or.inl rfl)
        have hsel : sel.length ≤ l.length := by
          rcases hinv with h1 | h1
          · omega
          · simp [h1.2]
        omega
      · rw [if_neg hlt]
        exact ih ms sel hinv

theorem listdir_loop_attempt_le (outcome : Nat → Except String (List String))
    (idxs : List Nat) :
    ∀ maxSize selected, LoopInv maxSize selected →
      ∀ i ∈ idxs, ∀ l, outcome i = .ok l →
        l.length ≤ (listdir_loop outcome idxs maxSize selected).length := by
  induction idxs with
  | nil => intro ms sel _ i hi; simp at hi
  | cons j rest ih =>
    intro ms sel hinv i hi l hl
    cases hout : outcome j with
    | error e =>
      simp only [listdir_loop, hout]
      rcases List.mem_cons.mp hi with rfl | hi2
      · rw [hout] at hl; cases hl
      · exact ih ms sel hinv i hi2 l hl
    | ok l' =>
      simp only [listdir_loop, hout]
      by_cases hlt : ms < (l'.length : Int)
      · rw [if_pos hlt]
        rcases List.mem_cons.mp hi with rfl | hi2
        · rw [hout] at hl
          cases hl
          exact listdir_loop_sel_le outcome rest (l.length : Int) l (Or.inl rfl)
        · exact ih (l'.length : Int) l' (Or.inl rfl) i hi2 l hl
      · rw [if_neg hlt]
        rcases List.mem_cons.mp hi with rfl | hi2
        · rw [hout] at hl
          cases hl
          have hle : (l.length : Int) ≤ ms := by omega
          have hsel : l.length ≤ sel.length := by
            rcases hinv with h1 | h1
            · omega
            · rw [h1.1] at hle; omega
          exact le_trans hsel (listdir_loop_sel_le outcome rest ms sel hinv)
        · exact ih ms sel hinv i hi2 l hl

theorem listdir_loop_result (outcome : Nat → Except String (List String))
    (idxs : List Nat) :
    ∀ maxSize selected,
      listdir_loop outcome idxs maxSize selected = selected ∨
      ∃ i ∈ idxs, outcome i = .ok (listdir_loop outcome idxs maxSize selected) := by
  induction idxs with
  | nil => intro ms sel; left; rfl
  | cons j rest ih =>
    intro ms sel
    cases hout : outcome j with
    | error e =>
      simp only [listdir_loop, hout]
      rcases ih ms sel with h | ⟨i, hi, hok⟩
      · left; exact h
      · right; exact ⟨i, by simp [hi], hok⟩
    | ok l =>
      simp only [listdir_loop, hout]
      by_cases hlt : ms < (l.length : Int)
      · rw [if_pos hlt]
        rcases ih (l.length : Int) l with h | ⟨i, hi, hok⟩
        · right; exact ⟨j, by simp, by rw [hout, h]⟩
        · right; exact ⟨i, by simp [hi], hok⟩
      · rw [if_neg hlt]
        rcases ih ms sel with h | ⟨i, hi, hok⟩
        · left; exact h
        · right; exact ⟨i, by simp [hi], hok⟩

/-- C6. Directory-listing truncation heuristic: whenever at least one of the
20 listing attempts succeeds, `listdir` returns the listing of one of the
successful attempts, and its entry count is the largest among all successful
attempts. -/
theorem c6_listdir_max (outcome : Nat → Except String (List String))
    (h : ∃ i, i < repeat_times ∧ is_ok (outcome i) = true) :
    (∃ i, i < repeat_times ∧ outcome i = .ok (listdir outcome)) ∧
    (∀ i, i < repeat_times → ∀ l, outcome i = .ok l →
      l.length ≤ (listdir outcome).length) := by
  have hinv : LoopInv (-1) [] := Or.inr ⟨rfl, rfl⟩
  constructor
  · rcases listdir_loop_result outcome (List.range repeat_times) (-1) [] with hres | ⟨i, hi, hok⟩
    · obtain ⟨i, hi, hiok⟩ := h
      cases hout : outcome i with
      | error e => rw [hout] at hiok; simp [is_ok] at hiok
      | ok l =>
        have hlen := listdir_loop_attempt_le outcome (List.range repeat_times) (-1) []
          hinv i (List.mem_range.mpr hi) l hout
        rw [listdir] at *
        rw [hres] at hlen ⊢
        have : l = [] := List.length_eq_zero.mp (Nat.le_zero.mp hlen)
        exact ⟨i, hi, by rw [hout, this]⟩
    · exact ⟨i, List.mem_range.mp hi, hok⟩
  · intro i hi l hl
    exact listdir_loop_attempt_le outcome (List.range repeat_times) (-1) []
      hinv i (List.mem_range.mpr hi) l hl

theorem c6_listdir_max_witness :
    listdir c6_outcome = ["a", "b", "c", "d", "e", "f", "g"] ∧
    ((∃ i, i < repeat_times ∧ c6_outcome i = .ok (listdir c6_outcome)) ∧
     (∀ i, i < repeat_times → ∀ l, c6_outcome i = .ok l →
       l.length ≤ (listdir c6_outcome).length)) :=
  ⟨rfl, c6_listdir_max c6_outcome ⟨2, by decide, rfl⟩⟩

/-- C10. `listdir` absorbs every attempt failure: it is a total function,
and when every one of the 20 listing attempts fails it returns the empty
list instead of propagating any failure. -/
theorem c10_listdir_never_raises (outcome : Nat → Except String (List String))
    (h : ∀ i, i < repeat_times → is_ok (outcome i) = false) :
    listdir outcome = [] :=
  listdir_loop_all_err outcome (List.range repeat_times) (-1) []
    (fun i hi => h i (List.mem_range.mp hi))

theorem c10_listdir_never_raises_witness :
    listdir (fun _ => .error "WinError 59") = [] :=
  c10_listdir_never_raises (fun _ => .error "WinError 59") (fun _ _ => rfl)

/-! ## Lemmas about the retry loop -/

theorem err_of_not_ok {ε α : Type} (x : Except ε α) (h : is_ok x = false) :
    ∃ e, x = .error e := by
  cases x with
  | ok a => simp [is_ok] at h
  | error e => exact ⟨e, rfl⟩

theorem retry_go_append {α : Type} (attempt : Nat → Except String α)
    (xs ys : List Nat) : ∀ e,
    retry_go attempt (xs ++ ys) e =
      (match retry_go attempt xs e with
       | .ok a => .ok a
       | .error e2 => retry_go attempt ys e2) := by
  induction xs with
  | nil => intro e; simp [retry_go]
  | cons j rest ih =>
    intro e
    cases hout : attempt j with
    | ok a => simp [retry_go, hout]
    | error e2 => simp only [List.cons_append, retry_go, hout]; exact ih e2

theorem retry_go_all_err {α : Type} (attempt : Nat → Except String α)
    (idxs : List Nat) (h : ∀ i ∈ idxs, is_ok (attempt i) = false) :
    ∀ e, ∃ e2, retry_go attempt idxs e = .error e2 := by
  induction idxs with
  | nil => intro e; exact ⟨e, rfl⟩
  | cons j rest ih =>
    intro e
    obtain ⟨ej, hej⟩ := err_of_not_ok (attempt j) (h j (by simp))
    simp only [retry_go, hej]
    exact ih (fun i hi => h i (by simp [hi])) ej

/-- C7 counterexample: with bound `n = 1` and an operation that fails once
then succeeds, `retry_function` re-raises the failure instead of returning
the value the claimed executes-then-retries-up-to-n-times contract
(`retry_claimed`) produces. -/
theorem c7_retry_cex :
    retry_function 1 c7_attempt = .error "first failure" ∧
    retry_claimed 1 c7_attempt = .ok 42 ∧
    retry_function 1 c7_attempt ≠ retry_claimed 1 c7_attempt := by
  refine ⟨rfl, rfl, ?_⟩
  intro h
  rw [show retry_function 1 c7_attempt = .error "first failure" from rfl,
      show retry_claimed 1 c7_attempt = .ok 42 from rfl] at h
  exact Except.noConfusion h

/-- C7 amended. `retry_function(n, f)` makes at most `n` calls of the
operation in total (the initial call counts toward `n`): it returns the value
of the first call that succeeds; when all `n` calls fail it re-raises the
failure of the `n`-th call; and when `n = 0` it raises the synthetic
`Retry Exception Failed.` without invoking the operation. -/
theorem c7_retry_amended {α : Type} (n : Nat) (attempt : Nat → Except String α) :
    (∀ i a, i < n → (∀ j, j < i → is_ok (attempt j) = false) →
      attempt i = .ok a → retry_function n attempt = .ok a) ∧
    (0 < n → (∀ i, i < n → is_ok (attempt i) = false) →
      retry_function n attempt = attempt (n - 1)) ∧
    (n = 0 → retry_function n attempt = .error "Retry Exception Failed.") := by
  refine ⟨?_, ?_, ?_⟩
  · intro i a hi hprev hok
    obtain ⟨k, hk⟩ : ∃ k, n = i + (k + 1) := ⟨n - i - 1, by omega⟩
    rw [retry_function, hk, List.range_add, retry_go_append]
    obtain ⟨e2, he2⟩ := retry_go_all_err attempt (List.range i)
      (fun j hj => hprev j (List.mem_range.mp hj)) "Retry Exception Failed."
    rw [he2]
    rw [List.range_succ_eq_map]
    simp only [List.map_cons, Nat.add_zero, retry_go, hok]
  · intro hn hall
    obtain ⟨m, rfl⟩ : ∃ m, n = m + 1 := ⟨n - 1, by omega⟩
    rw [retry_function, List.range_succ, retry_go_append]
    obtain ⟨e2, he2⟩ := retry_go_all_err attempt (List.range m)
      (fun j hj => hall j (by have := List.mem_range.mp hj; omega)) "Retry Exception Failed."
    rw [he2]
    obtain ⟨em, hem⟩ := err_of_not_ok (attempt m) (hall m (by omega))
    simp [retry_go, hem]
  · intro hn
    subst hn
    rfl

/-- Concrete run of the amended retry contract: with three total attempts
and the operation succeeding on its second call, `retry_function` returns
that value; and with every call failing it re-raises the third failure. -/
theorem c7_retry_amended_witness :
    retry_function 3 c7_attempt = .ok 42 ∧
    retry_function 3 (fun i => (.error (toString i) : Except String Nat)) = .error "2" :=
  ⟨(c7_retry_amended 3 c7_attempt).1 1 42 (by omega)
      (fun j hj => by interval_cases j; rfl) rfl,
   (c7_retry_amended 3 (fun i => (.error (toString i) : Except String Nat))).2.1
      (by omega) (fun i _ => rfl)⟩

/-! ## Lemmas about the ledger operations -/

theorem gen_ok_inversion (pn : PName) (i : Nat) (d p : String)
    (h : generate_new_patient_name pn i d = .ok p) :
    pn.family ≠ "" ∧ p = initials_of pn ++ toString i ++ "_" ++ d := by
  by_cases hf : pn.family = ""
  · rw [gen_err pn i d hf] at h; cases h
  · rw [gen_ok pn i d hf] at h
    exact ⟨hf, (Except.ok.injEq _ _ ▸ h).symm⟩

theorem lookup_entry_append_none (m : Ledger) (pid : String) (e : Entry)
    (h : lookup_entry m pid = none) :
    lookup_entry (m ++ [(pid, e)]) pid = some e := by
  induction m with
  | nil => simp [lookup_entry]
  | cons kv rest ih =>
    obtain ⟨k, v⟩ := kv
    by_cases hk : k = pid
    · simp [lookup_entry, hk] at h
    · simp only [lookup_entry, if_neg hk, List.cons_append] at h ⊢
      exact ih h

theorem lookup_entry_append_other (m : Ledger) (pid : String) (e : Entry)
    (q : String) (h : q ≠ pid) :
    lookup_entry (m ++ [(pid, e)]) q = lookup_entry m q := by
  induction m with
  | nil => simp [lookup_entry, Ne.symm h]
  | cons kv rest ih =>
    obtain ⟨k, v⟩ := kv
    by_cases hk : k = q
    · simp [lookup_entry, hk]
    · simp only [List.cons_append, lookup_entry, if_neg hk]
      exact ih

theorem init_of_lookup_some (pid : String) (m : Ledger) (e : Entry)
    (h : lookup_entry m pid = some e) :
    initialise_mapping_entry pid m = m := by
  rw [initialise_mapping_entry, h]

theorem lookup_init_self (pid : String) (m : Ledger) :
    lookup_entry (initialise_mapping_entry pid m) pid =
      some ((lookup_entry m pid).getD empty_entry) := by
  rw [initialise_mapping_entry]
  cases h : lookup_entry m pid with
  | some e => simp [h]
  | none => simp [lookup_entry_append_none m pid empty_entry h]

theorem lookup_init_other (pid : String) (m : Ledger) (q : String) (h : q ≠ pid) :
    lookup_entry (initialise_mapping_entry pid m) q = lookup_entry m q := by
  rw [initialise_mapping_entry]
  cases hm : lookup_entry m pid with
  | some e => rfl
  | none => exact lookup_entry_append_other m pid empty_entry q h

theorem set_entry_lookup_self (m : Ledger) (pid : String) (e : Entry)
    (hmem : (lookup_entry m pid).isSome) :
    lookup_entry (set_entry m pid e) pid = some e := by
  induction m with
  | nil => simp [lookup_entry] at hmem
  | cons kv rest ih =>
    obtain ⟨k, v⟩ := kv
    by_cases hk : k = pid
    · simp [set_entry, lookup_entry, hk]
    · simp only [lookup_entry, if_neg hk] at hmem
      simp only [set_entry, if_neg hk, lookup_entry, if_neg hk]
      exact ih hmem

theorem set_entry_lookup_other (m : Ledger) (pid : String) (e : Entry)
    (q : String) (h : q ≠ pid) :
    lookup_entry (set_entry m pid e) q = lookup_entry m q := by
  induction m with
  | nil => rfl
  | cons kv rest ih =>
    obtain ⟨k, v⟩ := kv
    simp only [set_entry]
    by_cases hk : k = pid
    · rw [if_pos hk]
      have hkq : ¬k = q := by rw [hk]; exact Ne.symm h
      simp only [lookup_entry, if_neg hkq]
    · rw [if_neg hk]
      by_cases hq : k = q
      · simp only [lookup_entry, if_pos hq]
      · simp only [lookup_entry, if_neg hq]
        exact ih

theorem lookup_entry_mem (m : Ledger) (pid : String) (e : Entry)
    (h : lookup_entry m pid = some e) : (pid, e) ∈ m := by
  induction m with
  | nil => cases h
  | cons kv rest ih =>
    obtain ⟨k, v⟩ := kv
    by_cases hk : k = pid
    · subst hk
      simp only [lookup_entry, if_pos rfl] at h
      cases h
      exact List.mem_cons_self _ _
    · simp only [lookup_entry, if_neg hk] at h
      exact List.mem_cons_of_mem _ (ih h)

theorem set_entry_mem (m : Ledger) (pid : String) (e : Entry) :
    ∀ pe ∈ set_entry m pid e, pe ∈ m ∨ pe.2 = e := by
  induction m with
  | nil => intro pe hpe; cases hpe
  | cons kv rest ih =>
    obtain ⟨k, v⟩ := kv
    intro pe hpe
    by_cases hk : k = pid
    · simp only [set_entry, if_pos hk] at hpe
      rcases List.mem_cons.mp hpe with rfl | hpe2
      · right; rfl
      · left; exact List.mem_cons_of_mem _ hpe2
    · simp only [set_entry, if_neg hk] at hpe
      rcases List.mem_cons.mp hpe with rfl | hpe2
      · left; exact List.mem_cons_self _ _
      · rcases ih pe hpe2 with h1 | h1
        · left; exact List.mem_cons_of_mem _ h1
        · right; exact h1

theorem exists_init (r : PatientInfo) (m : Ledger) :
    exists_in_mapping r (initialise_mapping_entry r.patientId m) =
      exists_in_mapping r m := by
  rw [initialise_mapping_entry]
  cases hm : lookup_entry m r.patientId with
  | some e => rfl
  | none =>
    rw [exists_in_mapping, exists_in_mapping, hm,
        lookup_entry_append_none m r.patientId empty_entry hm]
    rfl

theorem get_patient_index_some (r : PatientInfo) (m : Ledger) (e : Entry)
    (h : lookup_entry m r.patientId = some e) :
    get_patient_index r m = some (e.index.getD m.length) := by
  obtain ⟨idx, pns, npns, accs, sds, fs⟩ := e
  rw [get_patient_index, h]
  cases idx with
  | none => rfl
  | some i => rfl

/-- Evaluation of `add_to_mapping` when the pseudonym is derivable: the
resolved index is the entry's stored index, defaulting to the
post-initialisation ledger size, and the ledger is unchanged exactly when the
record's triple is already recorded. -/
theorem add_eval (r : PatientInfo) (m : Ledger) (e1 : Entry)
    (hlook : lookup_entry (initialise_mapping_entry r.patientId m) r.patientId = some e1)
    (hfam : r.patientName.family ≠ "") :
    add_to_mapping r m =
      (if exists_in_mapping r m then
        .ok (pseudo_of r (e1.index.getD (initialise_mapping_entry r.patientId m).length),
             initialise_mapping_entry r.patientId m)
      else
        .ok (pseudo_of r (e1.index.getD (initialise_mapping_entry r.patientId m).length),
             set_entry (initialise_mapping_entry r.patientId m) r.patientId
               (appended_entry e1 r
                 (e1.index.getD (initialise_mapping_entry r.patientId m).length)
                 (pseudo_of r (e1.index.getD (initialise_mapping_entry r.patientId m).length))))) := by
  have hidx := get_patient_index_some r (initialise_mapping_entry r.patientId m) e1 hlook
  simp only [add_to_mapping, hlook, hidx,
    gen_ok r.patientName (e1.index.getD (initialise_mapping_entry r.patientId m).length)
      r.studyDate hfam, exists_init, pseudo_of, appended_entry]

/-- `add_to_mapping` re-raises the `IndexError` of pseudonym generation when
even the family-name initial is unavailable. -/
theorem add_fam_err (r : PatientInfo) (m : Ledger) (hfam : r.patientName.family = "") :
    add_to_mapping r m = .error "IndexError" := by
  have hlook := lookup_init_self r.patientId m
  have hidx := get_patient_index_some r (initialise_mapping_entry r.patientId m) _ hlook
  simp only [add_to_mapping, hlook, hidx,
    gen_err r.patientName _ r.studyDate hfam]

/-- Forward evaluation of `add_to_mapping` on a record whose triple is
already recorded: the freshly regenerated pseudonym is returned and the
ledger is left unchanged. -/
theorem add_exists_spec (r : PatientInfo) (m : Ledger)
    (hfam : r.patientName.family ≠ "") (hex : exists_in_mapping r m = true) :
    ∃ i e, lookup_entry m r.patientId = some e ∧ i = e.index.getD m.length ∧
      get_patient_index r m = some i ∧
      add_to_mapping r m = .ok (pseudo_of r i, m) := by
  have hpid : ∃ e, lookup_entry m r.patientId = some e := by
    rw [exists_in_mapping] at hex
    cases hl : lookup_entry m r.patientId with
    | none => rw [hl] at hex; cases hex
    | some e => exact ⟨e, rfl⟩
  obtain ⟨e, he⟩ := hpid
  have hinit := init_of_lookup_some r.patientId m e he
  have hlook1 : lookup_entry (initialise_mapping_entry r.patientId m) r.patientId = some e := by
    rw [hinit]; exact he
  refine ⟨e.index.getD m.length, e, he, rfl, get_patient_index_some r m e he, ?_⟩
  rw [add_eval r m e hlook1 hfam, if_pos hex, hinit]

/-- Forward evaluation of `add_to_mapping` on a record whose triple is not
yet recorded: the entry is initialised, the candidate index resolved, and
one encounter appended. -/
theorem add_new_spec (r : PatientInfo) (m : Ledger)
    (hfam : r.patientName.family ≠ "") (hex : exists_in_mapping r m = false) :
    ∃ i e1, lookup_entry (initialise_mapping_entry r.patientId m) r.patientId = some e1 ∧
      i = e1.index.getD (initialise_mapping_entry r.patientId m).length ∧
      add_to_mapping r m = .ok (pseudo_of r i,
        set_entry (initialise_mapping_entry r.patientId m) r.patientId
          (appended_entry e1 r i (pseudo_of r i))) := by
  have hlook := lookup_init_self r.patientId m
  refine ⟨_, _, hlook, rfl, ?_⟩
  rw [add_eval r m _ hlook hfam, hex]
  simp only [Bool.false_eq_true, if_false]

/-- Forward evaluation of `add_to_mapping` on a patient whose index is
already committed: the call observes that index (deriving the pseudonym from
it) and preserves it. -/
theorem add_indexed_spec (r : PatientInfo) (m : Ledger) (i : Nat) (e : Entry)
    (hlook : lookup_entry m r.patientId = some e) (hidx : e.index = some i)
    (hfam : r.patientName.family ≠ "") :
    ∃ m2, add_to_mapping r m = .ok (pseudo_of r i, m2) ∧
      entry_index m2 r.patientId = some i := by
  have hinit := init_of_lookup_some r.patientId m e hlook
  have hlook1 : lookup_entry (initialise_mapping_entry r.patientId m) r.patientId = some e := by
    rw [hinit]; exact hlook
  have hgd : e.index.getD (initialise_mapping_entry r.patientId m).length = i := by
    rw [hidx]; rfl
  rw [add_eval r m e hlook1 hfam, hgd, hinit]
  by_cases hex : exists_in_mapping r m = true
  · rw [if_pos hex]
    exact ⟨m, rfl, by simp only [entry_index, hlook, hidx]⟩
  · simp only [Bool.not_eq_true] at hex
    rw [hex]
    simp only [Bool.false_eq_true, if_false]
    refine ⟨_, rfl, ?_⟩
    rw [entry_index, set_entry_lookup_self m r.patientId _ (by rw [hlook]; rfl)]
    rfl

/-- Inversion of a successful `add_to_mapping` call: the pseudonym was
derivable and is derived from the record in hand at the resolved index, and
the ledger is either unchanged (triple already recorded) or extended by
exactly one appended encounter. -/
theorem add_ok_inversion (r : PatientInfo) (m : Ledger) (p : String) (m2 : Ledger)
    (h : add_to_mapping r m = .ok (p, m2)) :
    ∃ i e1, lookup_entry (initialise_mapping_entry r.patientId m) r.patientId = some e1 ∧
      i = e1.index.getD (initialise_mapping_entry r.patientId m).length ∧
      r.patientName.family ≠ "" ∧ p = pseudo_of r i ∧
      ((exists_in_mapping r m = true ∧ m2 = initialise_mapping_entry r.patientId m) ∨
       (exists_in_mapping r m = false ∧
        m2 = set_entry (initialise_mapping_entry r.patientId m) r.patientId
               (appended_entry e1 r i p))) := by
  by_cases hfam : r.patientName.family = ""
  · rw [add_fam_err r m hfam] at h; cases h
  · have hlook := lookup_init_self r.patientId m
    rw [add_eval r m _ hlook hfam] at h
    refine ⟨_, _, hlook, rfl, hfam, ?_⟩
    by_cases hex : exists_in_mapping r m = true
    · rw [if_pos hex] at h
      simp only [Except.ok.injEq, Prod.mk.injEq] at h
      exact ⟨h.1.symm, Or.inl ⟨hex, h.2.symm⟩⟩
    · simp only [Bool.not_eq_true] at hex
      rw [hex] at h
      simp only [Bool.false_eq_true, if_false, Except.ok.injEq, Prod.mk.injEq] at h
      refine ⟨h.1.symm, Or.inr ⟨hex, ?_⟩⟩
      rw [← h.2, ← h.1]

/-! ## Counting, length and well-formedness helpers -/

theorem count_pairs_append (l1 l2 : List (String × String)) (a d : String) :
    count_pairs (l1 ++ l2) a d = count_pairs l1 a d + count_pairs l2 a d := by
  induction l1 with
  | nil => simp [count_pairs]
  | cons x rest ih =>
    obtain ⟨xa, xd⟩ := x
    by_cases hx : xa = a ∧ xd = d
    · simp only [List.cons_append, count_pairs, if_pos hx, List.append_eq, ih]
      omega
    · simp only [List.cons_append, count_pairs, if_neg hx, List.append_eq, ih]

theorem count_pairs_zero_of_exists_false (l : List (String × String)) (a d : String)
    (h : exists_pair l a d = false) : count_pairs l a d = 0 := by
  induction l with
  | nil => rfl
  | cons x rest ih =>
    obtain ⟨xa, xd⟩ := x
    by_cases hx : xa = a ∧ xd = d
    · simp [exists_pair, if_pos hx] at h
    · simp only [exists_pair, if_neg hx] at h
      simp only [count_pairs, if_neg hx]
      exact ih h

theorem count_pairs_pos_of_exists_true (l : List (String × String)) (a d : String)
    (h : exists_pair l a d = true) : 1 ≤ count_pairs l a d := by
  induction l with
  | nil => cases h
  | cons x rest ih =>
    obtain ⟨xa, xd⟩ := x
    by_cases hx : xa = a ∧ xd = d
    · simp only [count_pairs, if_pos hx]
      omega
    · simp only [exists_pair, if_neg hx] at h
      simp only [count_pairs, if_neg hx]
      exact ih h

theorem exists_pair_last (l : List (String × String)) (a d : String) :
    exists_pair (l ++ [(a, d)]) a d = true := by
  induction l with
  | nil => simp [exists_pair]
  | cons x rest ih =>
    obtain ⟨xa, xd⟩ := x
    by_cases hx : xa = a ∧ xd = d
    · simp [exists_pair, if_pos hx]
    · simp only [List.cons_append, exists_pair, if_neg hx]
      exact ih

theorem set_entry_length (m : Ledger) (pid : String) (e : Entry) :
    (set_entry m pid e).length = m.length := by
  induction m with
  | nil => rfl
  | cons kv rest ih =>
    obtain ⟨k, v⟩ := kv
    by_cases hk : k = pid
    · simp [set_entry, hk]
    · simp only [set_entry, if_neg hk, List.length_cons, ih]

theorem init_length_of_none (pid : String) (m : Ledger)
    (h : lookup_entry m pid = none) :
    (initialise_mapping_entry pid m).length = m.length + 1 := by
  rw [initialise_mapping_entry, h]
  simp

theorem entry_index_some_inv (m : Ledger) (pid : String) (i : Nat)
    (h : entry_index m pid = some i) :
    ∃ e, lookup_entry m pid = some e ∧ e.index = some i := by
  rw [entry_index] at h
  cases hl : lookup_entry m pid with
  | none => rw [hl] at h; cases h
  | some e => rw [hl] at h; exact ⟨e, rfl, h⟩

theorem WFEntry_empty : WFEntry empty_entry := by
  refine ⟨rfl, rfl, rfl, rfl⟩

theorem WFLedger_init (pid : String) (m : Ledger) (hwf : WFLedger m) :
    WFLedger (initialise_mapping_entry pid m) := by
  rw [initialise_mapping_entry]
  cases hm : lookup_entry m pid with
  | some e => exact hwf
  | none =>
    intro pe hpe
    rcases List.mem_append.mp hpe with h1 | h1
    · exact hwf pe h1
    · rcases List.mem_singleton.mp h1 with rfl
      exact WFEntry_empty

theorem WFEntry_appended (e : Entry) (r : PatientInfo) (i : Nat) (p : String)
    (hwf : WFEntry e) : WFEntry (appended_entry e r i p) := by
  obtain ⟨h1, h2, h3, h4⟩ := hwf
  simp only [WFEntry, appended_entry, List.length_append, List.length_singleton]
  omega

theorem string_append_cancel_left (s t u : String) (h : s ++ t = s ++ u) : t = u := by
  have hd : s.data ++ t.data = s.data ++ u.data := by
    have h1 : (s ++ t).data = (s ++ u).data := by rw [h]
    simpa [String.data_append] using h1
  have h2 := List.append_cancel_left hd
  cases t
  cases u
  exact congrArg String.mk h2

/-! ## C3: re-encounter behaviour -/

/-- C3 amended. Re-encounter behaviour: when
`exists_in_mapping r m` holds, `add_to_mapping` leaves the ledger unchanged,
but the pseudonym it returns is regenerated from the name carried by the
record in hand together with the resolved index
(`get_patient_index`) and the study date — not read back from the stored
`NewPatientName` sequence. It therefore coincides with the stored pseudonym
only when the current record's name initials and resolved index match those
of the original encounter. -/
theorem c3_reencounter_amended (r : PatientInfo) (m : Ledger)
    (hex : exists_in_mapping r m = true) (hfam : r.patientName.family ≠ "") :
    ∃ i, get_patient_index r m = some i ∧
      add_to_mapping r m = .ok (pseudo_of r i, m) := by
  obtain ⟨i, e, _, _, hgpi, hadd⟩ := add_exists_spec r m hfam hex
  exact ⟨i, hgpi, hadd⟩

/-- C3 counterexample: for a record carrying P1's recorded triple but a
different patient-name field, the code returns the regenerated pseudonym
AB1_20200101, not the pseudonym JS1_20200101 stored at the matching position
of the NewPatientName sequence. -/
theorem c3_reencounter_cex :
    add_to_mapping c3_r2 c3_m = .ok ("AB1_20200101", c3_m) ∧
    matched_pseudonym c3_r2 c3_m = some "JS1_20200101" ∧
    ("AB1_20200101" : String) ≠ "JS1_20200101" :=
  ⟨rfl, rfl, by decide⟩

theorem c3_reencounter_amended_witness :
    ∃ i, get_patient_index c3_r1 c3_m = some i ∧
      add_to_mapping c3_r1 c3_m = .ok (pseudo_of c3_r1 i, c3_m) :=
  c3_reencounter_amended c3_r1 c3_m (by decide) (by decide)

/-! ## C2: idempotence of resolution per encounter triple -/

/-- C2. Idempotence per (patientId, accession, studyDate) triple: for every
well-formed ledger state recording the record's triple at most once, calling
`add_to_mapping` twice with the same record returns the identical pseudonym
both times, the second call leaves the ledger produced by the first call
unchanged, and afterwards exactly one encounter for the triple is recorded in
the patient's entry. -/
theorem c2_resolve_idempotent (m : Ledger) (r : PatientInfo)
    (hfam : r.patientName.family ≠ "") (hwf : WFLedger m)
    (hcount : triple_count m r ≤ 1) :
    ∃ p m1, add_to_mapping r m = .ok (p, m1) ∧
      add_to_mapping r m1 = .ok (p, m1) ∧ triple_count m1 r = 1 := by
  by_cases hex : exists_in_mapping r m = true
  · obtain ⟨i, e, he, _, _, hadd⟩ := add_exists_spec r m hfam hex
    refine ⟨pseudo_of r i, m, hadd, hadd, ?_⟩
    simp only [exists_in_mapping, he] at hex
    have h1 := count_pairs_pos_of_exists_true _ _ _ hex
    simp only [triple_count, he] at hcount ⊢
    omega
  · simp only [Bool.not_eq_true] at hex
    obtain ⟨i, e1, hlook, hie, hadd⟩ := add_new_spec r m hfam hex
    set m1 := set_entry (initialise_mapping_entry r.patientId m) r.patientId
      (appended_entry e1 r i (pseudo_of r i)) with hm1def
    have hlookm1 : lookup_entry m1 r.patientId =
        some (appended_entry e1 r i (pseudo_of r i)) :=
      set_entry_lookup_self _ _ _ (by rw [hlook]; rfl)
    have hwfe1 : WFEntry e1 :=
      WFLedger_init r.patientId m hwf _ (lookup_entry_mem _ _ _ hlook)
    have hlen : e1.accessionNumbers.length = e1.studyDates.length := by
      obtain ⟨h1, h2, h3, h4⟩ := hwfe1; omega
    have hzip : (appended_entry e1 r i (pseudo_of r i)).accessionNumbers.zip
        (appended_entry e1 r i (pseudo_of r i)).studyDates =
        e1.accessionNumbers.zip e1.studyDates ++ [(r.accessionNumber, r.studyDate)] := by
      simp only [appended_entry]
      rw [List.zip_append hlen]
      rfl
    have hex1 : exists_in_mapping r m1 = true := by
      simp only [exists_in_mapping, hlookm1]
      rw [hzip]
      exact exists_pair_last _ _ _
    obtain ⟨i2, e2, he2, hie2, _, hadd2⟩ := add_exists_spec r m1 hfam hex1
    rw [hlookm1] at he2
    have he2e : e2 = appended_entry e1 r i (pseudo_of r i) := by
      injection he2 with h; exact h.symm
    have hi2 : i2 = i := by
      rw [hie2, he2e]; rfl
    refine ⟨pseudo_of r i, m1, hadd, ?_, ?_⟩
    · rw [← hi2]; exact hadd2
    · simp only [triple_count, hlookm1]
      rw [hzip, count_pairs_append]
      have hexinit : exists_in_mapping r (initialise_mapping_entry r.patientId m) = false := by
        rw [exists_init]; exact hex
      rw [exists_in_mapping, hlook] at hexinit
      rw [count_pairs_zero_of_exists_false _ _ _ hexinit]
      simp [count_pairs]

theorem c2_resolve_idempotent_witness :
    ∃ p m1, add_to_mapping c3_r1 [] = .ok (p, m1) ∧
      add_to_mapping c3_r1 m1 = .ok (p, m1) ∧ triple_count m1 c3_r1 = 1 :=
  c2_resolve_idempotent [] c3_r1 (by decide)
    (fun pe hpe => absurd hpe (List.not_mem_nil pe)) (by decide)

/-! ## C8: index stability -/

/-- C8. Index stability: once a patient's index is committed by a first
resolved encounter, a second encounter of the same patient (same name,
different study date) observes and preserves that same index while receiving
a different pseudonym, and every further successful `add_to_mapping` call for
that patient still observes and preserves the index. -/
theorem c8_index_stability (m : Ledger) (r1 r2 : PatientInfo)
    (hpid : r2.patientId = r1.patientId) (hname : r2.patientName = r1.patientName)
    (hfam : r1.patientName.family ≠ "") (hdate : r2.studyDate ≠ r1.studyDate)
    (hnex : exists_in_mapping r1 m = false) :
    ∃ p1 m1 p2 m2 i,
      add_to_mapping r1 m = .ok (p1, m1) ∧
      entry_index m1 r1.patientId = some i ∧
      add_to_mapping r2 m1 = .ok (p2, m2) ∧
      entry_index m2 r1.patientId = some i ∧
      p1 ≠ p2 ∧
      (∀ r3 p3 m3, r3.patientId = r1.patientId →
        add_to_mapping r3 m2 = .ok (p3, m3) →
        entry_index m3 r1.patientId = some i ∧ p3 = pseudo_of r3 i) := by
  obtain ⟨i, e1, hlook, hie, hadd1⟩ := add_new_spec r1 m hfam hnex
  set m1 := set_entry (initialise_mapping_entry r1.patientId m) r1.patientId
    (appended_entry e1 r1 i (pseudo_of r1 i)) with hm1def
  have hlookm1 : lookup_entry m1 r1.patientId =
      some (appended_entry e1 r1 i (pseudo_of r1 i)) :=
    set_entry_lookup_self _ _ _ (by rw [hlook]; rfl)
  have hlookm1r2 : lookup_entry m1 r2.patientId =
      some (appended_entry e1 r1 i (pseudo_of r1 i)) := by
    rw [hpid]; exact hlookm1
  have hfam2 : r2.patientName.family ≠ "" := by rw [hname]; exact hfam
  obtain ⟨m2, hadd2, hidx2⟩ :=
    add_indexed_spec r2 m1 i (appended_entry e1 r1 i (pseudo_of r1 i)) hlookm1r2 rfl hfam2
  have hidx2r1 : entry_index m2 r1.patientId = some i := by
    rw [← hpid]; exact hidx2
  refine ⟨pseudo_of r1 i, m1, pseudo_of r2 i, m2, i, hadd1, ?_, hadd2, hidx2r1, ?_, ?_⟩
  · simp only [entry_index, hlookm1, appended_entry]
  · intro hpe
    rw [pseudo_of, pseudo_of, hname] at hpe
    exact hdate (string_append_cancel_left _ _ _ hpe).symm
  · intro r3 p3 m3 hpid3 hadd3
    obtain ⟨e4, hle4, hie4⟩ := entry_index_some_inv m2 r1.patientId i hidx2r1
    by_cases hfam3 : r3.patientName.family = ""
    · rw [add_fam_err r3 m2 hfam3] at hadd3; cases hadd3
    · have hle3 : lookup_entry m2 r3.patientId = some e4 := by
        rw [hpid3]; exact hle4
      obtain ⟨m4, hadd4, hidx4⟩ := add_indexed_spec r3 m2 i e4 hle3 hie4 hfam3
      rw [hadd3] at hadd4
      simp only [Except.ok.injEq, Prod.mk.injEq] at hadd4
      obtain ⟨hp3, hm3⟩ := hadd4
      constructor
      · rw [← hm3] at hidx4
        rw [← hpid3]
        exact hidx4
      · exact hp3

theorem c8_index_stability_witness :
    ∃ p1 m1 p2 m2 i,
      add_to_mapping c3_r1 [] = .ok (p1, m1) ∧
      entry_index m1 c3_r1.patientId = some i ∧
      add_to_mapping c8_r2 m1 = .ok (p2, m2) ∧
      entry_index m2 c3_r1.patientId = some i ∧
      p1 ≠ p2 ∧
      (∀ r3 p3 m3, r3.patientId = c3_r1.patientId →
        add_to_mapping r3 m2 = .ok (p3, m3) →
        entry_index m3 c3_r1.patientId = some i ∧ p3 = pseudo_of r3 i) :=
  c8_index_stability [] c3_r1 c8_r2 rfl rfl (by decide) (by decide) rfl

/-! ## C1: sequential index assignment -/

/-- C1 counterexample: starting from the empty ledger, the first distinct
patient for which `add_to_mapping` appends an encounter is assigned index 1,
not index 0 — the entry is initialised before `get_patient_index` reads
`len(self.mapping)`, so the count already includes the new patient. -/
theorem c1_sequential_index_cex :
    add_to_mapping c1_r [] = .ok ("JS1_20200101", c1_m1) ∧
    entry_index c1_m1 "P1" = some 1 ∧
    entry_index c1_m1 "P1" ≠ some 0 :=
  ⟨rfl, rfl, by decide⟩

/-- C1 amended. Sequential index assignment, one-based: the candidate index
for a not-yet-indexed patient equals the ledger's entry count at assignment
time, a count that already includes the patient's just-initialised entry;
consequently, starting from an empty ledger the first distinct patient is
assigned index 1 and the second distinct patient index 2, and the first
patient's index is unchanged by the second patient's resolution. -/
theorem c1_sequential_index_amended :
    (∀ (r : PatientInfo) (m : Ledger) (e : Entry),
      lookup_entry m r.patientId = some e → e.index = none →
      get_patient_index r m = some m.length) ∧
    (∀ r1 r2 : PatientInfo, r1.patientId ≠ r2.patientId →
      r1.patientName.family ≠ "" → r2.patientName.family ≠ "" →
      ∃ p1 m1 p2 m2, add_to_mapping r1 [] = .ok (p1, m1) ∧
        entry_index m1 r1.patientId = some 1 ∧
        add_to_mapping r2 m1 = .ok (p2, m2) ∧
        entry_index m2 r1.patientId = some 1 ∧
        entry_index m2 r2.patientId = some 2) := by
  constructor
  · intro r m e hl hi
    rw [get_patient_index_some r m e hl, hi]
    rfl
  · intro r1 r2 hne hfam1 hfam2
    have hex1 : exists_in_mapping r1 [] = false := rfl
    obtain ⟨i1, e1, hlook1, hie1, hadd1⟩ := add_new_spec r1 [] hfam1 hex1
    have hminit : initialise_mapping_entry r1.patientId [] =
        [(r1.patientId, empty_entry)] := rfl
    have he1 : e1 = empty_entry := by
      have h := hlook1
      rw [hminit] at h
      simp only [lookup_entry, eq_self_iff_true, if_true, Option.some.injEq] at h
      exact h.symm
    have hi1 : i1 = 1 := by
      rw [hie1, he1, hminit]
      rfl
    set m1 := set_entry (initialise_mapping_entry r1.patientId []) r1.patientId
      (appended_entry e1 r1 i1 (pseudo_of r1 i1)) with hm1def
    have hlookm1 : lookup_entry m1 r1.patientId =
        some (appended_entry e1 r1 i1 (pseudo_of r1 i1)) :=
      set_entry_lookup_self _ _ _ (by rw [hlook1]; rfl)
    have hidxm1 : entry_index m1 r1.patientId = some 1 := by
      simp only [entry_index, hlookm1, appended_entry, hi1]
    have hlookm1r2 : lookup_entry m1 r2.patientId = none := by
      rw [hm1def, set_entry_lookup_other _ _ _ _ (Ne.symm hne),
          lookup_init_other _ _ _ (Ne.symm hne)]
      rfl
    have hex2 : exists_in_mapping r2 m1 = false := by
      rw [exists_in_mapping, hlookm1r2]
    obtain ⟨i2, e2, hlook2, hie2, hadd2⟩ := add_new_spec r2 m1 hfam2 hex2
    have he2 : e2 = empty_entry := by
      have hself := lookup_init_self r2.patientId m1
      rw [hlookm1r2] at hself
      have h2 := hself.symm.trans hlook2
      injection h2 with h
      exact h.symm
    have hm1len : m1.length = 1 := by
      rw [hm1def, set_entry_length, hminit]
      rfl
    have hi2 : i2 = 2 := by
      rw [hie2, he2, init_length_of_none r2.patientId m1 hlookm1r2, hm1len]
      rfl
    set m2 := set_entry (initialise_mapping_entry r2.patientId m1) r2.patientId
      (appended_entry e2 r2 i2 (pseudo_of r2 i2)) with hm2def
    have hlookm2r2 : lookup_entry m2 r2.patientId =
        some (appended_entry e2 r2 i2 (pseudo_of r2 i2)) :=
      set_entry_lookup_self _ _ _ (by rw [hlook2]; rfl)
    have hidx2 : entry_index m2 r2.patientId = some 2 := by
      simp only [entry_index, hlookm2r2, appended_entry, hi2]
    have hlookm2r1 : lookup_entry m2 r1.patientId =
        some (appended_entry e1 r1 i1 (pseudo_of r1 i1)) := by
      rw [hm2def, set_entry_lookup_other _ _ _ _ hne,
          lookup_init_other _ _ _ hne]
      exact hlookm1
    have hidx1m2 : entry_index m2 r1.patientId = some 1 := by
      simp only [entry_index, hlookm2r1, appended_entry, hi1]
    exact ⟨pseudo_of r1 i1, m1, pseudo_of r2 i2, m2, hadd1, hidxm1, hadd2, hidx1m2, hidx2⟩

theorem c1_sequential_index_amended_witness :
    get_patient_index c1_r c1_m0 = some 1 ∧
    (∃ p1 m1 p2 m2, add_to_mapping c1_r [] = .ok (p1, m1) ∧
      entry_index m1 c1_r.patientId = some 1 ∧
      add_to_mapping c1_r2 m1 = .ok (p2, m2) ∧
      entry_index m2 c1_r.patientId = some 1 ∧
      entry_index m2 c1_r2.patientId = some 2) :=
  ⟨c1_sequential_index_amended.1 c1_r c1_m0 empty_entry rfl rfl,
   c1_sequential_index_amended.2 c1_r c1_r2 (by decide) (by decide) (by decide)⟩

/-! ## C9: parallel-sequence invariant -/

/-- C9. Parallel-sequence invariant: entry initialisation creates five empty
sequences and preserves well-formedness of every entry; every successful
`add_to_mapping` call preserves the equal-length invariant of every entry;
and when a new encounter is appended, each of the five sequences of the
patient's entry grows by exactly one element. -/
theorem c9_parallel_sequences :
    (∀ (pid : String) (m : Ledger), WFLedger m →
      WFLedger (initialise_mapping_entry pid m)) ∧
    (∀ (pid : String) (m : Ledger), lookup_entry m pid = none →
      lookup_entry (initialise_mapping_entry pid m) pid = some empty_entry) ∧
    (∀ (r : PatientInfo) (m : Ledger) (p : String) (m2 : Ledger),
      WFLedger m → add_to_mapping r m = .ok (p, m2) → WFLedger m2) ∧
    (∀ (r : PatientInfo) (m : Ledger) (p : String) (m2 : Ledger) (e1 e2 : Entry),
      add_to_mapping r m = .ok (p, m2) → exists_in_mapping r m = false →
      lookup_entry (initialise_mapping_entry r.patientId m) r.patientId = some e1 →
      lookup_entry m2 r.patientId = some e2 →
      e2.patientNames.length = e1.patientNames.length + 1 ∧
      e2.newPatientNames.length = e1.newPatientNames.length + 1 ∧
      e2.accessionNumbers.length = e1.accessionNumbers.length + 1 ∧
      e2.studyDates.length = e1.studyDates.length + 1 ∧
      e2.originalBaseFolders.length = e1.originalBaseFolders.length + 1) := by
  refine ⟨WFLedger_init, ?_, ?_, ?_⟩
  · intro pid m h
    rw [lookup_init_self, h]
    rfl
  · intro r m p m2 hwf hadd
    obtain ⟨i, e1, hlook, hie, hfam, hp, hcase⟩ := add_ok_inversion r m p m2 hadd
    rcases hcase with ⟨hex, rfl⟩ | ⟨hex, rfl⟩
    · exact WFLedger_init _ _ hwf
    · intro pe hpe
      rcases set_entry_mem _ _ _ pe hpe with h1 | h1
      · exact WFLedger_init _ _ hwf pe h1
      · rw [h1]
        exact WFEntry_appended e1 r i p
          (WFLedger_init _ _ hwf _ (lookup_entry_mem _ _ _ hlook))
  · intro r m p m2 e1 e2 hadd hex hlook1 hlook2
    obtain ⟨i, e1', hlook', hie, hfam, hp, hcase⟩ := add_ok_inversion r m p m2 hadd
    have he1 : e1' = e1 := by
      rw [hlook'] at hlook1
      injection hlook1
    rcases hcase with ⟨hex', _⟩ | ⟨hex', rfl⟩
    · rw [hex'] at hex; cases hex
    · have hsel : lookup_entry
          (set_entry (initialise_mapping_entry r.patientId m) r.patientId
            (appended_entry e1' r i p)) r.patientId = some (appended_entry e1' r i p) :=
        set_entry_lookup_self _ _ _ (by rw [hlook']; rfl)
      rw [hsel] at hlook2
      have he2 : e2 = appended_entry e1' r i p := by
        injection hlook2 with h; exact h.symm
      rw [he2, he1]
      simp [appended_entry]

theorem c9_parallel_sequences_witness :
    WFLedger (initialise_mapping_entry "P1" []) ∧
    lookup_entry (initialise_mapping_entry "P1" []) "P1" = some empty_entry ∧
    WFLedger c1_m1 ∧
    (c3_entry.patientNames.length = empty_entry.patientNames.length + 1 ∧
     c3_entry.newPatientNames.length = empty_entry.newPatientNames.length + 1 ∧
     c3_entry.accessionNumbers.length = empty_entry.accessionNumbers.length + 1 ∧
     c3_entry.studyDates.length = empty_entry.studyDates.length + 1 ∧
     c3_entry.originalBaseFolders.length = empty_entry.originalBaseFolders.length + 1) :=
  ⟨c9_parallel_sequences.1 "P1" [] (fun pe hpe => absurd hpe (List.not_mem_nil pe)),
   c9_parallel_sequences.2.1 "P1" [] rfl,
   c9_parallel_sequences.2.2.1 c1_r [] "JS1_20200101" c1_m1
     (fun pe hpe => absurd hpe (List.not_mem_nil pe)) rfl,
   c9_parallel_sequences.2.2.2 c3_r1 [] "JS1_20200101" [("P1", c3_entry)]
     empty_entry c3_entry rfl rfl rfl rfl⟩

/-! ## Dataset tag lemmas for the scrub postcondition -/

theorem lookup_tag_append_none (d : Dataset) (f v : String)
    (h : lookup_tag d f = none) :
    lookup_tag (d ++ [(f, v)]) f = some v := by
  induction d with
  | nil => simp [lookup_tag]
  | cons kv rest ih =>
    obtain ⟨k, w⟩ := kv
    by_cases hk : k = f
    · simp [lookup_tag, hk] at h
    · simp only [lookup_tag, if_neg hk, List.cons_append] at h ⊢
      exact ih h

theorem lookup_tag_append_other (d : Dataset) (f v g : String) (h : g ≠ f) :
    lookup_tag (d ++ [(f, v)]) g = lookup_tag d g := by
  induction d with
  | nil => simp [lookup_tag, Ne.symm h]
  | cons kv rest ih =>
    obtain ⟨k, w⟩ := kv
    by_cases hk : k = g
    · simp [lookup_tag, hk]
    · simp only [List.cons_append, lookup_tag, if_neg hk]
      exact ih

theorem lookup_set_tag_in_self (d : Dataset) (f v w : String)
    (h : lookup_tag d f = some w) :
    lookup_tag (set_tag_in d f v) f = some v := by
  induction d with
  | nil => cases h
  | cons kv rest ih =>
    obtain ⟨k, u⟩ := kv
    by_cases hk : k = f
    · simp [set_tag_in, lookup_tag, hk]
    · simp only [lookup_tag, if_neg hk] at h
      simp only [set_tag_in, if_neg hk, lookup_tag, if_neg hk]
      exact ih h

theorem lookup_set_tag_in_other (d : Dataset) (f v g : String) (h : g ≠ f) :
    lookup_tag (set_tag_in d f v) g = lookup_tag d g := by
  induction d with
  | nil => rfl
  | cons kv rest ih =>
    obtain ⟨k, u⟩ := kv
    simp only [set_tag_in]
    by_cases hk : k = f
    · rw [if_pos hk]
      have hkg : ¬k = g := by rw [hk]; exact Ne.symm h
      simp only [lookup_tag, if_neg hkg]
      exact ih
    · rw [if_neg hk]
      by_cases hg : k = g
      · simp only [lookup_tag, if_pos hg]
      · simp only [lookup_tag, if_neg hg]
        exact ih

theorem lookup_set_tag_self (d : Dataset) (f v : String) :
    lookup_tag (set_tag d f v) f = some v := by
  rw [set_tag]
  cases h : lookup_tag d f with
  | some w => exact lookup_set_tag_in_self d f v w h
  | none => exact lookup_tag_append_none d f v h

theorem lookup_set_tag_other (d : Dataset) (f v g : String) (h : g ≠ f) :
    lookup_tag (set_tag d f v) g = lookup_tag d g := by
  rw [set_tag]
  cases hl : lookup_tag d f with
  | some w => exact lookup_set_tag_in_other d f v g h
  | none => exact lookup_tag_append_other d f v g h

theorem lookup_del_tag_self (d : Dataset) (f : String) :
    lookup_tag (del_tag d f) f = none := by
  induction d with
  | nil => rfl
  | cons kv rest ih =>
    obtain ⟨k, v⟩ := kv
    by_cases hk : k = f
    · simp only [del_tag, if_pos hk]
      exact ih
    · simp only [del_tag, if_neg hk, lookup_tag, if_neg hk]
      exact ih

theorem lookup_del_tag_other (d : Dataset) (f g : String) (h : g ≠ f) :
    lookup_tag (del_tag d f) g = lookup_tag d g := by
  induction d with
  | nil => rfl
  | cons kv rest ih =>
    obtain ⟨k, v⟩ := kv
    simp only [del_tag]
    by_cases hk : k = f
    · rw [if_pos hk]
      have hkg : ¬k = g := by rw [hk]; exact Ne.symm h
      simp only [lookup_tag, if_neg hkg]
      exact ih
    · rw [if_neg hk]
      by_cases hg : k = g
      · simp only [lookup_tag, if_pos hg]
      · simp only [lookup_tag, if_neg hg]
        exact ih

theorem lookup_fold_del_none (fs : List String) :
    ∀ d f, lookup_tag d f = none →
      lookup_tag (fs.foldl (fun acc g => del_tag acc g) d) f = none := by
  induction fs with
  | nil => intro d f h; exact h
  | cons g rest ih =>
    intro d f h
    simp only [List.foldl_cons]
    by_cases hg : f = g
    · exact ih _ _ (by rw [hg]; exact lookup_del_tag_self d g)
    · exact ih _ _ (by rw [lookup_del_tag_other d g f hg]; exact h)

theorem lookup_fold_del_mem (fs : List String) :
    ∀ d f, f ∈ fs →
      lookup_tag (fs.foldl (fun acc g => del_tag acc g) d) f = none := by
  induction fs with
  | nil => intro d f h; cases h
  | cons g rest ih =>
    intro d f h
    simp only [List.foldl_cons]
    rcases List.mem_cons.mp h with rfl | h2
    · exact lookup_fold_del_none rest (del_tag d f) f (lookup_del_tag_self d f)
    · exact ih _ _ h2

theorem lookup_fold_del_not_mem (fs : List String) :
    ∀ d f, f ∉ fs →
      lookup_tag (fs.foldl (fun acc g => del_tag acc g) d) f = lookup_tag d f := by
  induction fs with
  | nil => intro d f _; rfl
  | cons g rest ih =>
    intro d f h
    simp only [List.foldl_cons]
    have hg : f ≠ g := fun hc => h (hc ▸ List.mem_cons_self g rest)
    rw [ih _ _ (fun hc => h (List.mem_cons_of_mem g hc)),
        lookup_del_tag_other d g f hg]

theorem lookup_fold_set_not_mem (rs : List (String × String)) :
    ∀ d f, f ∉ rs.map Prod.fst →
      lookup_tag (rs.foldl (fun acc fv => set_tag acc fv.1 fv.2) d) f = lookup_tag d f := by
  induction rs with
  | nil => intro d f _; rfl
  | cons fv rest ih =>
    intro d f h
    simp only [List.map_cons] at h
    simp only [List.foldl_cons]
    have h1 : f ≠ fv.1 := fun hc => h (hc ▸ List.mem_cons_self fv.1 _)
    rw [ih _ _ (fun hc => h (List.mem_cons_of_mem _ hc)),
        lookup_set_tag_other d fv.1 fv.2 f h1]

theorem lookup_fold_set_mem (rs : List (String × String)) :
    ∀ d f v, (rs.map Prod.fst).Nodup → (f, v) ∈ rs →
      lookup_tag (rs.foldl (fun acc fv => set_tag acc fv.1 fv.2) d) f = some v := by
  induction rs with
  | nil => intro d f v _ h; cases h
  | cons fv rest ih =>
    intro d f v hnd h
    simp only [List.map_cons, List.nodup_cons] at hnd
    simp only [List.foldl_cons]
    rcases List.mem_cons.mp h with rfl | h2
    · rw [lookup_fold_set_not_mem rest _ _ hnd.1]
      exact lookup_set_tag_self d f v
    · exact ih _ _ _ hnd.2 h2

theorem lookup_remove_private_removed (isPrivate faulty : String → Bool)
    (d : Dataset) (f : String) (hp : isPrivate f = true) (hf : faulty f = false) :
    lookup_tag (remove_private_tags isPrivate faulty d) f = none := by
  induction d with
  | nil => rfl
  | cons kv rest ih =>
    obtain ⟨k, v⟩ := kv
    simp only [remove_private_tags]
    by_cases hk : isPrivate k = true ∧ faulty k = false
    · rw [if_pos hk]
      exact ih
    · rw [if_neg hk]
      by_cases hkf : k = f
      · exact absurd ⟨by rw [hkf]; exact hp, by rw [hkf]; exact hf⟩ hk
      · simp only [lookup_tag, if_neg hkf]
        exact ih

theorem lookup_remove_private_kept (isPrivate faulty : String → Bool)
    (d : Dataset) (f : String) (hp : ¬(isPrivate f = true ∧ faulty f = false)) :
    lookup_tag (remove_private_tags isPrivate faulty d) f = lookup_tag d f := by
  induction d with
  | nil => rfl
  | cons kv rest ih =>
    obtain ⟨k, v⟩ := kv
    simp only [remove_private_tags]
    by_cases hk : isPrivate k = true ∧ faulty k = false
    · rw [if_pos hk]
      have hkf : ¬k = f :=
        fun hc => hp ⟨by rw [← hc]; exact hk.1, by rw [← hc]; exact hk.2⟩
      simp only [lookup_tag, if_neg hkf]
      exact ih
    · rw [if_neg hk]
      by_cases hg : k = f
      · simp only [lookup_tag, if_pos hg]
      · simp only [lookup_tag, if_neg hg]
        exact ih

theorem lookup_remove_private_of_public (isPrivate faulty : String → Bool)
    (d : Dataset) (f : String) (hp : isPrivate f = false) :
    lookup_tag (remove_private_tags isPrivate faulty d) f = lookup_tag d f :=
  lookup_remove_private_kept isPrivate faulty d f
    (fun hc => by rw [hp] at hc; exact Bool.noConfusion hc.1)

theorem lookup_remove_private_none (isPrivate faulty : String → Bool) (d : Dataset)
    (f : String) (h : lookup_tag d f = none) :
    lookup_tag (remove_private_tags isPrivate faulty d) f = none := by
  by_cases hp : isPrivate f = true ∧ faulty f = false
  · exact lookup_remove_private_removed isPrivate faulty d f hp.1 hp.2
  · rw [lookup_remove_private_kept isPrivate faulty d f hp]
    exact h

/-! ## C5: scrub postcondition -/

theorem extract_d0_other (sourceBase : String) (d : Dataset)
    (info : PatientInfo) (d0 : Dataset)
    (h : extract_key_info sourceBase d = .ok (info, d0)) :
    ∀ f, f ≠ patient_name_key → lookup_tag d0 f = lookup_tag d f := by
  intro f hf
  rw [extract_key_info] at h
  cases hpid : lookup_tag d patient_id_key with
  | none => rw [hpid] at h; cases h
  | some pid =>
    rw [hpid] at h
    cases hname : lookup_tag d patient_name_key with
    | some n =>
      simp only [hname] at h
      cases hacc : lookup_tag d accession_key with
      | none => rw [hacc] at h; cases h
      | some acc =>
        rw [hacc] at h
        cases hsd : lookup_tag d study_date_key with
        | none => rw [hsd] at h; cases h
        | some sd =>
          rw [hsd] at h
          simp only [Except.ok.injEq, Prod.mk.injEq] at h
          rw [← h.2]
    | none =>
      simp only [hname] at h
      cases hacc : lookup_tag (set_tag d patient_name_key "Z^Z") accession_key with
      | none => rw [hacc] at h; cases h
      | some acc =>
        rw [hacc] at h
        cases hsd : lookup_tag (set_tag d patient_name_key "Z^Z") study_date_key with
        | none => rw [hsd] at h; cases h
        | some sd =>
          rw [hsd] at h
          simp only [Except.ok.injEq, Prod.mk.injEq] at h
          rw [← h.2]
          exact lookup_set_tag_other d patient_name_key "Z^Z" f hf

theorem anonymise_ok_inversion (isPrivate faulty : String → Bool) (sourceBase : String)
    (d : Dataset) (m : Ledger) (d4 : Dataset) (p : String) (m1 : Ledger)
    (h : anonymise_dicom isPrivate faulty sourceBase d m = .ok (d4, p, m1)) :
    ∃ info d0, extract_key_info sourceBase d = .ok (info, d0) ∧
      add_to_mapping info m = .ok (p, m1) ∧
      d4 = remove_private_tags isPrivate faulty
        (delete_tags.foldl (fun acc f => del_tag acc f)
          (replace_tags.foldl (fun acc fv => set_tag acc fv.1 fv.2)
            (set_tag d0 patient_name_key p))) := by
  cases hext : extract_key_info sourceBase d with
  | error e => rw [anonymise_dicom, hext] at h; cases h
  | ok pair =>
    obtain ⟨info, d0⟩ := pair
    rw [anonymise_dicom] at h
    simp only [hext] at h
    cases hadd : add_to_mapping info m with
    | error e => rw [hadd] at h; cases h
    | ok qm =>
      obtain ⟨q, m2⟩ := qm
      rw [hadd] at h
      simp only [Except.ok.injEq, Prod.mk.injEq] at h
      obtain ⟨hd4, hq, hm2⟩ := h
      refine ⟨info, d0, rfl, ?_, ?_⟩
      · rw [hadd, hq, hm2]
      · rw [← hd4, hq]

/-- C5 counterexample: when the fallback's deletion of the private tag
PrivateCSA raises (`except: continue`), `anonymise_dicom` completes normally
with that vendor-private field still present in the output record — refuting
the claim's "no vendor-private field remains" for every input record. -/
theorem c5_scrub_cex :
    anonymise_dicom c5_priv c5_faulty "cohort" c5_d [] =
      .ok (c5_d4_faulty, "JS1_20200101", c1_m1) ∧
    c5_priv "PrivateCSA" = true ∧
    lookup_tag c5_d4_faulty "PrivateCSA" = some "secret" :=
  ⟨rfl, rfl, rfl⟩

/-- C5 amended. Scrub postcondition: whenever `anonymise_dicom` completes on
a record, the output record contains no delete-list field, carries every
replace-table field at its configured value, contains no vendor-private
field whose deletion works, carries the resolved pseudonym in the
patient-name field, and agrees with the input record on every other public
field; a vendor-private field whose individual deletion raises is skipped
and survives with its input value. The standard tag keywords involved are
not vendor-private, which the two `isPrivate` hypotheses state. -/
theorem c5_scrub_postcondition (isPrivate faulty : String → Bool) (sourceBase : String)
    (d : Dataset) (m : Ledger) (d4 : Dataset) (p : String) (m1 : Ledger)
    (h : anonymise_dicom isPrivate faulty sourceBase d m = .ok (d4, p, m1))
    (hp1 : isPrivate patient_name_key = false)
    (hp2 : ∀ fv ∈ replace_tags, isPrivate fv.1 = false) :
    ScrubPost isPrivate faulty d d4 p := by
  obtain ⟨info, d0, hext, hadd, hd4⟩ :=
    anonymise_ok_inversion isPrivate faulty sourceBase d m d4 p m1 h
  have hnodup : (replace_tags.map Prod.fst).Nodup := by decide
  have hrep_del : ∀ fv ∈ replace_tags, fv.1 ∉ delete_tags := by decide
  have hpn_rep : patient_name_key ∉ replace_tags.map Prod.fst := by decide
  have hpn_del : patient_name_key ∉ delete_tags := by decide
  refine ⟨?_, ?_, ?_, ?_, ?_, ?_⟩
  · intro f hf
    rw [hd4]
    exact lookup_remove_private_none isPrivate faulty _ f
      (lookup_fold_del_mem delete_tags _ f hf)
  · intro fv hfv
    rw [hd4, lookup_remove_private_of_public isPrivate faulty _ fv.1 (hp2 fv hfv),
        lookup_fold_del_not_mem delete_tags _ fv.1 (hrep_del fv hfv)]
    exact lookup_fold_set_mem replace_tags _ fv.1 fv.2 hnodup
      (by obtain ⟨a, b⟩ := fv; exact hfv)
  · intro f hf hff
    rw [hd4]
    exact lookup_remove_private_removed isPrivate faulty _ f hf hff
  · rw [hd4, lookup_remove_private_of_public isPrivate faulty _ patient_name_key hp1,
        lookup_fold_del_not_mem delete_tags _ patient_name_key hpn_del,
        lookup_fold_set_not_mem replace_tags _ patient_name_key hpn_rep]
    exact lookup_set_tag_self d0 patient_name_key p
  · intro f hf hfr hfd hfp
    rw [hd4, lookup_remove_private_of_public isPrivate faulty _ f hfp,
        lookup_fold_del_not_mem delete_tags _ f hfd,
        lookup_fold_set_not_mem replace_tags _ f hfr,
        lookup_set_tag_other d0 patient_name_key p f hf]
    exact extract_d0_other sourceBase d info d0 hext f hf
  · intro f hf hfr hfd hfp hff
    rw [hd4, lookup_remove_private_kept isPrivate faulty _ f
          (fun hc => by rw [hff] at hc; exact Bool.noConfusion hc.2),
        lookup_fold_del_not_mem delete_tags _ f hfd,
        lookup_fold_set_not_mem replace_tags _ f hfr,
        lookup_set_tag_other d0 patient_name_key p f hf]
    exact extract_d0_other sourceBase d info d0 hext f hf

theorem c5_scrub_postcondition_witness :
    anonymise_dicom c5_priv c5_faulty "cohort" c5_d [] =
      .ok (c5_d4_faulty, "JS1_20200101", c1_m1) ∧
    ScrubPost c5_priv c5_faulty c5_d c5_d4_faulty "JS1_20200101" :=
  ⟨rfl, c5_scrub_postcondition c5_priv c5_faulty "cohort" c5_d [] c5_d4_faulty
    "JS1_20200101" c1_m1 rfl rfl (by decide)⟩
